import Mathlib

/-!
# NethSecurity controller API server: cache refresh loop, route table, GeoIP helpers

A shallow embedding of `api/main.go`, `api/models/unit.go` and `api/utils/geoip.go`.

Calls that leave the program text (`methods.ListUnits`, `methods.GetRemoteInfo`, the ticker
channel, `os.Stat`, `exec.Command(...).Run`, `geoip2.Open`, the GeoIP lookup) are taken from an
environment record that threads an arbitrary world state, so that every result may depend on
everything that happened before. Each embedded function returns, next to its Go result, the list
of outward calls it performed, in program order.
-/

namespace Controller

/-! ## Go result values -/

/-- Go `(value, err)` pair: either an error with its message or a value. -/
inductive Result (α : Type) where
  | err (msg : String)
  | ok (val : α)
  deriving DecidableEq, Repr

/-- Status payload of a unit (`unitInfo`), kept opaque. -/
abbrev UnitInfo := String

/-! ## The status cache (`cache` package) -/

/-- Contents of the status cache: last stored payload per unit id, if any. -/
abbrev Cache := String → Option UnitInfo

/-- Modelled from the spec: `cache.SetUnitInfo` belongs to the `cache` package, whose code is
not among the files embedded here; the Status Cache contract says that `Set(id, payload)`
overwrites unconditionally, and no cross-key effect is described. -/
def SetUnitInfo (c : Cache) (unit : String) (unitInfo : UnitInfo) : Cache :=
  fun id => if id = unit then some unitInfo else c id

/-- Modelled from the spec: `Get(id)` answers the stored payload or absent. -/
def GetUnitInfo (c : Cache) (id : String) : Option UnitInfo := c id

/-- Cache right after `cache.Init()`: no entry. -/
def emptyCache : Cache := fun _ => none

/-! ## Time -/

/-- Go `time.Nanosecond`. -/
def Nanosecond : Int := 1
/-- Go `time.Second`. -/
def Second : Int := 1000000000 * Nanosecond
/-- Go `time.Minute`. -/
def Minute : Int := 60 * Second
/-- Go `time.Hour`. -/
def Hour : Int := 60 * Minute

/-- A `time.Ticker`: only its period matters here. -/
structure Ticker where
  period : Int
  deriving DecidableEq, Repr

/-- Go `time.NewTicker d`. -/
def NewTicker (d : Int) : Ticker := ⟨d⟩

/-- The first `n` values delivered on the ticker channel, as time elapsed since the ticker was
created: the `k`-th tick is due at `k * period`. -/
def Ticker.C (t : Ticker) (n : Nat) : List Int :=
  (List.range n).map (fun (k : Nat) => ((k : Int) + 1) * t.period)

/-! ## `refreshCacheLoop` -/

/-- Outward calls of the refresh loop, each with the result it received. -/
inductive Call where
  | Tick (at_ : Int)
  | ListUnits (res : Result (List String))
  | GetRemoteInfo (unit : String) (res : Result UnitInfo)
  | SetUnitInfo (unit : String) (unitInfo : UnitInfo)
  deriving DecidableEq, Repr

/-- The collaborators of the loop (`methods` package), over a world state `W`. -/
structure Env (W : Type) where
  ListUnits : W → Result (List String) × W
  GetRemoteInfo : W → String → Result UnitInfo × W

/-- What a piece of the loop has done: calls made, world and cache reached. -/
structure Run (W : Type) where
  calls : List Call
  world : W
  cache : Cache

/-- The inner loop, lines 55-60:
`for _, unit := range units { unitInfo, err := GetRemoteInfo(unit); if err == nil { SetUnitInfo(unit, unitInfo) } }`. -/
def refreshUnits {W : Type} (env : Env W) : List String → W → Cache → Run W
  | [], w, c => ⟨[], w, c⟩
  | unit :: rest, w, c =>
    match env.GetRemoteInfo w unit with
    | (Result.ok unitInfo, w1) =>
      let r := refreshUnits env rest w1 (SetUnitInfo c unit unitInfo)
      ⟨Call.GetRemoteInfo unit (Result.ok unitInfo) :: Call.SetUnitInfo unit unitInfo :: r.calls,
        r.world, r.cache⟩
    | (Result.err e, w1) =>
      let r := refreshUnits env rest w1 c
      ⟨Call.GetRemoteInfo unit (Result.err e) :: r.calls, r.world, r.cache⟩

/-- One iteration of `for range ticker.C`, lines 49-60, entered on the tick `t`. The boolean is
`true` when the body executed `return` (the `err != nil` branch after `ListUnits`). -/
def cycle {W : Type} (env : Env W) (t : Int) (w : W) (c : Cache) : Run W × Bool :=
  match env.ListUnits w with
  | (Result.err e, w1) => (⟨[Call.Tick t, Call.ListUnits (Result.err e)], w1, c⟩, true)
  | (Result.ok units, w1) =>
    let r := refreshUnits env units w1 c
    (⟨Call.Tick t :: Call.ListUnits (Result.ok units) :: r.calls, r.world, r.cache⟩, false)

/-- State of the goroutine running `refreshCacheLoop`. -/
structure LoopState (W : Type) where
  calls : List Call
  world : W
  cache : Cache
  returned : Bool

/-- The loop `for range ticker.C { ... }` over the ticks delivered so far. -/
def loopOver {W : Type} (env : Env W) : List Int → W → Cache → LoopState W
  | [], w, c => ⟨[], w, c, false⟩
  | t :: ticks, w, c =>
    match cycle env t w c with
    | (r, true) => ⟨r.calls, r.world, r.cache, true⟩
    | (r, false) =>
      let s := loopOver env ticks r.world r.cache
      ⟨r.calls ++ s.calls, s.world, s.cache, s.returned⟩

/-- The function `refreshCacheLoop`, observed when the ticker has delivered `n` ticks:
`ticker := time.NewTicker(60 * time.Minute); for range ticker.C { ... }`. -/
def refreshCacheLoop {W : Type} (env : Env W) (n : Nat) (w : W) (c : Cache) : LoopState W :=
  loopOver env ((NewTicker (60 * Minute)).C n) w c

/-! ## Observations on a list of calls -/

/-- The `GetRemoteInfo` calls of a trace, in order, with their results. -/
def fetches : List Call → List (String × Result UnitInfo)
  | [] => []
  | Call.GetRemoteInfo u r :: cs => (u, r) :: fetches cs
  | _ :: cs => fetches cs

/-- The `cache.SetUnitInfo` calls of a trace, in order. -/
def writes : List Call → List (String × UnitInfo)
  | [] => []
  | Call.SetUnitInfo u p :: cs => (u, p) :: writes cs
  | _ :: cs => writes cs

/-- The `ListUnits` calls of a trace, in order. -/
def listings : List Call → List (Result (List String))
  | [] => []
  | Call.ListUnits r :: cs => r :: listings cs
  | _ :: cs => listings cs

/-- The ticks received in a trace, in order. -/
def ticksOf : List Call → List Int
  | [] => []
  | Call.Tick t :: cs => t :: ticksOf cs
  | _ :: cs => ticksOf cs

/-- The fetches that succeeded, with their payloads. -/
def succeeded : List (String × Result UnitInfo) → List (String × UnitInfo)
  | [] => []
  | (u, Result.ok p) :: fs => (u, p) :: succeeded fs
  | (_, Result.err _) :: fs => succeeded fs

/-- The fetches that failed. -/
def failed : List (String × Result UnitInfo) → List String
  | [] => []
  | (_, Result.ok _) :: fs => failed fs
  | (u, Result.err _) :: fs => u :: failed fs

/-- What the loop body does around one fetch: the fetch, then the write when it succeeded. -/
def aroundFetch : String × Result UnitInfo → List Call
  | (u, Result.ok p) => [Call.GetRemoteInfo u (Result.ok p), Call.SetUnitInfo u p]
  | (u, Result.err e) => [Call.GetRemoteInfo u (Result.err e)]

/-! ## `main`: start-up and route table -/

/-- Value of `gin.Mode()`. -/
inductive Mode where
  | debug
  | release
  | test
  deriving DecidableEq, Repr

/-- The statements of `main` that precede the construction of the router, lines 66-80. -/
inductive Startup where
  | logsInit
  | configurationInit
  | storageInit
  | socketInit
  | cacheInit
  | goRefreshCacheLoop
  deriving DecidableEq, Repr

/-- Handler functions named in `main` (middleware and endpoint handlers). -/
inductive Handler where
  | Logger
  | Recovery
  | Gzip
  | Cors
  | JWTMiddlewareFunc
  | LoginHandler
  | LogoutHandler
  | RefreshHandler
  | RegisterUnit
  | GetAccounts
  | GetAccount
  | AddAccount
  | UpdateAccount
  | DeleteAccount
  | UpdatePassword
  | GetSSHKeys
  | AddSSHKeys
  | DeleteSSHKeys
  | GetDefaults
  | GetUnits
  | GetUnit
  | GetToken
  | AddUnit
  | DeleteUnit
  deriving DecidableEq, Repr

/-- HTTP methods used by the route table. -/
inductive Method where
  | GET
  | POST
  | PUT
  | DELETE
  deriving DecidableEq, Repr

/-- A registered endpoint: its handler chain is fixed when it is registered. -/
structure Route where
  method : Method
  path : String
  handlers : List Handler
  deriving DecidableEq, Repr

/-- A gin `RouterGroup`: base path and the middleware attached so far. -/
structure RouterGroup where
  basePath : String
  Handlers : List Handler
  deriving DecidableEq, Repr

/-- Path joining of gin for the shapes used in `main`: an empty relative path keeps the base
path, otherwise the relative path (which starts with `/`) is appended to the base path, the
root base path `/` contributing nothing. -/
def joinPaths (absolutePath relativePath : String) : String :=
  if relativePath = "" then absolutePath
  else if absolutePath = "/" then relativePath
  else absolutePath ++ relativePath

/-- The root group of `gin.Default()`: Logger and Recovery attached. -/
def Default : RouterGroup := ⟨"/", [Handler.Logger, Handler.Recovery]⟩

/-- `group.Use(middleware)`: appends to the middleware of the group. -/
def RouterGroup.Use (g : RouterGroup) (h : Handler) : RouterGroup :=
  ⟨g.basePath, g.Handlers ++ [h]⟩

/-- `group.Group(relativePath)`: a new group that starts from a copy of the middleware the
parent has at that moment. -/
def RouterGroup.Group (g : RouterGroup) (relativePath : String) : RouterGroup :=
  ⟨joinPaths g.basePath relativePath, g.Handlers⟩

/-- `group.GET/POST/PUT/DELETE(relativePath, handler)`: registers the endpoint with the
middleware the group has at that moment followed by the handler. -/
def RouterGroup.handle (g : RouterGroup) (routes : List Route) (m : Method)
    (relativePath : String) (h : Handler) : List Route :=
  routes ++ [⟨m, joinPaths g.basePath relativePath, g.Handlers ++ [h]⟩]

/-- What `main` has set up when it reaches `router.Run`. -/
structure Server where
  startup : List Startup
  routes : List Route
  deriving Repr

/-- The function `main`, lines 64-152, statement by statement. -/
def main (mode : Mode) : Server :=
  let startup := [Startup.logsInit, Startup.configurationInit, Startup.storageInit,
    Startup.socketInit, Startup.cacheInit, Startup.goRefreshCacheLoop]
  let router := Default
  let router := router.Use Handler.Gzip
  let router := if mode = Mode.debug then router.Use Handler.Cors else router
  let api := router.Group "/"
  let routes : List Route := []
  let routes := api.handle routes Method.POST "/login" Handler.LoginHandler
  let routes := api.handle routes Method.POST "/logout" Handler.LogoutHandler
  let routes := api.handle routes Method.POST "/units/register" Handler.RegisterUnit
  let api := api.Use Handler.JWTMiddlewareFunc
  let routes := api.handle routes Method.GET "/refresh" Handler.RefreshHandler
  let accounts := api.Group "/accounts"
  let routes := accounts.handle routes Method.GET "" Handler.GetAccounts
  let routes := accounts.handle routes Method.GET "/:account_id" Handler.GetAccount
  let routes := accounts.handle routes Method.POST "" Handler.AddAccount
  let routes := accounts.handle routes Method.PUT "/:account_id" Handler.UpdateAccount
  let routes := accounts.handle routes Method.DELETE "/:account_id" Handler.DeleteAccount
  let routes := accounts.handle routes Method.PUT "/password" Handler.UpdatePassword
  let routes := accounts.handle routes Method.GET "/ssh-keys" Handler.GetSSHKeys
  let routes := accounts.handle routes Method.POST "/ssh-keys" Handler.AddSSHKeys
  let routes := accounts.handle routes Method.DELETE "/ssh-keys" Handler.DeleteSSHKeys
  let defaults := api.Group "/defaults"
  let routes := defaults.handle routes Method.GET "" Handler.GetDefaults
  let units := api.Group "/units"
  let routes := units.handle routes Method.GET "" Handler.GetUnits
  let routes := units.handle routes Method.GET "/:unit_id" Handler.GetUnit
  let routes := units.handle routes Method.GET "/:unit_id/token" Handler.GetToken
  let routes := units.handle routes Method.POST "" Handler.AddUnit
  let routes := units.handle routes Method.DELETE "/:unit_id" Handler.DeleteUnit
  ⟨startup, routes⟩

/-- Method and path of a route. -/
def Route.key (r : Route) : Method × String := (r.method, r.path)

/-- Whether the JWT middleware is in the handler chain of a route. -/
def Route.guarded (r : Route) : Bool := decide (Handler.JWTMiddlewareFunc ∈ r.handlers)

/-! ## `models.RegisterRequest` -/

/-- The struct `RegisterRequest` of `models/unit.go`, after JSON decoding: a key missing from
the body leaves the zero value `""`. -/
structure RegisterRequest where
  UnitId : String
  Username : String
  Password : String
  UnitName : String
  Version : String
  SubscriptionType : String
  SystemId : String
  deriving DecidableEq, Repr

/-- A struct field as the binding layer sees it: Go name, `json` tag, `binding` tag, value. -/
structure Field where
  name : String
  json : String
  binding : List String
  value : String
  deriving DecidableEq, Repr

/-- The fields of `RegisterRequest` with their struct tags, lines 19-25. -/
def RegisterRequest.fields (r : RegisterRequest) : List Field :=
  [⟨"UnitId", "unit_id", ["required"], r.UnitId⟩,
   ⟨"Username", "username", ["required"], r.Username⟩,
   ⟨"Password", "password", ["required"], r.Password⟩,
   ⟨"UnitName", "unit_name", ["required"], r.UnitName⟩,
   ⟨"Version", "version", [], r.Version⟩,
   ⟨"SubscriptionType", "subscription_type", [], r.SubscriptionType⟩,
   ⟨"SystemId", "system_id", [], r.SystemId⟩]

/-- Modelled from the spec: the validation step of `methods.RegisterUnit`, whose code is not
among the files embedded here. "Validate required fields are present; reject with
`ValidationError` otherwise": a field tagged `binding:"required"` fails when its value is the
empty string. The result lists the Go names of the failing fields. -/
def bindingErrors (fs : List Field) : List String :=
  (fs.filter (fun f => decide ("required" ∈ f.binding) && decide (f.value = ""))).map
    (fun f => f.name)

/-- Modelled from the spec: outcome of step 1 of `Register`, a `ValidationError` naming the
failing fields or success. -/
def validate (r : RegisterRequest) : Result Unit :=
  match bindingErrors r.fields with
  | [] => Result.ok ()
  | errs => Result.err ("ValidationError: " ++ String.intercalate "," errs)

/-! ## `utils/geoip.go` -/

/-- The configuration values read by the GeoIP helpers. -/
structure Config where
  GeoIPDbDir : String
  MaxmindLicense : String
  deriving DecidableEq, Repr

/-- Go `net.IP`: a byte slice; `none` is the nil IP that `net.ParseIP` gives for invalid text. -/
abbrev IP := Option (List Nat)

/-- The `Country` part of a lookup record. -/
structure Country where
  IsoCode : String
  deriving DecidableEq, Repr

/-- The record returned by `db.City`. -/
structure CityRecord where
  Country : Country
  deriving DecidableEq, Repr

/-- An open `geoip2.Reader`: its `City` lookup. -/
structure Reader where
  City : IP → Result CityRecord

/-- How a call ends: it returns a value, or `log.Fatal` ends the process. -/
inductive Exit (α : Type) where
  | returns (v : α)
  | fatal (msg : String)
  deriving DecidableEq, Repr

/-- The function `GetCountryShort`, lines 43-55, with the package variable `db` and
`net.ParseIP` as arguments. The first component lists the arguments of the `db.City` lookups
performed. -/
def GetCountryShort (ParseIP : String → IP) (db : Option Reader) (ip : String) :
    List IP × Exit String :=
  match decide (ip = ""), db with
  | true, _ => ([], Exit.returns "")
  | false, none => ([], Exit.returns "")
  | false, some reader =>
    match reader.City (ParseIP ip) with
    | Result.err e => ([ParseIP ip], Exit.fatal e)
    | Result.ok record => ([ParseIP ip], Exit.returns record.Country.IsoCode)

/-- An external command: program name and arguments. -/
structure Cmd where
  name : String
  args : List String
  deriving DecidableEq, Repr

/-- Go `os.FileInfo`, reduced to `ModTime()` in nanoseconds since the epoch. -/
structure FileInfo where
  ModTime : Int
  deriving DecidableEq, Repr

/-- The operating system as seen by the GeoIP helpers, over a world state `W`. `Run` gives the
error of the command (`none` for nil) and the world after it. -/
structure Sys (W : Type) where
  Stat : W → String → Result FileInfo
  Now : W → Int
  Run : W → Cmd → Option String × W
  Open : W → String → Result Reader

/-- Go `maxDuration`. -/
def maxDuration : Int := 2 ^ 63 - 1
/-- Go `minDuration`. -/
def minDuration : Int := -(2 ^ 63)

/-- Go `time.Since(t)`: `now - t` as a `Duration`, saturating at the ends of its range. -/
def Since (now t : Int) : Int :=
  if now - t > maxDuration then maxDuration
  else if now - t < minDuration then minDuration
  else now - t

/-- Go `Duration.Hours`: `hour := d / Hour; nsec := d % Hour; hour + nsec/(60*60*1e9)`, with
the exact quotient in place of the float64 one (`/` and `%` of Go truncate towards zero). The
float64 value lies on the same side of 24 as the exact one: below 24 hours `hour` is at most 23
and the fraction stays under 1 by more than the rounding error, from 24 hours on `hour` alone
is at least 24. -/
def Hours (d : Int) : ℚ :=
  let hour := d.tdiv Hour
  let nsec := d.tmod Hour
  (hour : ℚ) + (nsec : ℚ) / (60 * 60 * 1000000000)

/-- Path of the database file. -/
def dbPath (cfg : Config) : String := cfg.GeoIPDbDir ++ "/GeoLite2-Country.mmdb"

/-- The download command, lines 63-71. -/
def curlCmd (cfg : Config) : Cmd :=
  ⟨"curl", ["-L", "--fail", "--retry", "5", "--retry-max-time", "120",
    "https://download.maxmind.com/app/geoip_download?edition_id=GeoLite2-Country&license_key="
      ++ cfg.MaxmindLicense ++ "&suffix=tar.gz",
    "-o", cfg.GeoIPDbDir ++ "/GeoLite2-Country.tar.gz"]⟩

/-- The extraction command, lines 76-81. -/
def tarCmd (cfg : Config) : Cmd :=
  ⟨"tar", ["xvzf", cfg.GeoIPDbDir ++ "/GeoLite2-Country.tar.gz", "--strip-components=1"]⟩

/-- The function `DownloadGeoIpDatabase`, lines 57-86: the commands it ran, in order, and the
world it leaves. -/
def DownloadGeoIpDatabase {W : Type} (cfg : Config) (sys : Sys W) (w : W) : List Cmd × W :=
  let fresh : Bool :=
    match sys.Stat w (dbPath cfg) with
    | Result.ok databaseFile => decide (Hours (Since (sys.Now w) databaseFile.ModTime) < 24)
    | Result.err _ => false
  if fresh then ([], w)
  else
    match sys.Run w (curlCmd cfg) with
    | (some _, w1) => ([curlCmd cfg], w1)
    | (none, w1) =>
      match sys.Run w1 (tarCmd cfg) with
      | (_, w2) => ([curlCmd cfg, tarCmd cfg], w2)

/-- What `InitGeoIP` leaves behind: the returned error (`none` for nil), the package variable
`db`, the commands run and the world. -/
structure InitOutcome (W : Type) where
  err : Option String
  db : Option Reader
  cmds : List Cmd
  world : W

/-- The function `InitGeoIP`, lines 25-41. -/
def InitGeoIP {W : Type} (cfg : Config) (sys : Sys W) (w : W) : InitOutcome W :=
  match DownloadGeoIpDatabase cfg sys w with
  | (cmds, w1) =>
    match sys.Open w1 (dbPath cfg) with
    | Result.err e => ⟨some e, none, cmds, w1⟩
    | Result.ok reader => ⟨none, some reader, cmds, w1⟩

/-! ## Shape of a trace -/

/-- Where the loop stands between two calls: no cycle entered yet, a tick just received, or
inside a cycle after its listing. -/
inductive Phase where
  | idle
  | ticked
  | running
  deriving DecidableEq, Repr

/-- The calls that may follow in each phase: a tick when idle or inside a cycle, the listing
right after a tick, fetches and cache writes inside a cycle. -/
def Phase.step : Phase → Call → Option Phase
  | Phase.idle, Call.Tick _ => some Phase.ticked
  | Phase.running, Call.Tick _ => some Phase.ticked
  | Phase.ticked, Call.ListUnits _ => some Phase.running
  | Phase.running, Call.GetRemoteInfo _ _ => some Phase.running
  | Phase.running, Call.SetUnitInfo _ _ => some Phase.running
  | _, _ => none

/-- Follows a trace call by call; `none` when a call comes out of turn. -/
def Phase.run : Phase → List Call → Option Phase
  | ph, [] => some ph
  | ph, c :: cs =>
    match ph.step c with
    | none => none
    | some ph1 => ph1.run cs

/-! ## A small concrete world -/

/-- A store that always lists the units `a`, `b`, `c`; the world counts the calls made. -/
def demoListUnits (w : Nat) : Result (List String) × Nat :=
  (Result.ok ["a", "b", "c"], w + 1)

/-- Unit `b` is unreachable, the others answer with the number of the call. -/
def demoGetRemoteInfo (w : Nat) (unit : String) : Result UnitInfo × Nat :=
  if unit = "b" then (Result.err "unreachable", w + 1)
  else (Result.ok (unit ++ "@" ++ toString w), w + 1)

/-- The concrete collaborators used to exercise the theorems. -/
def demoEnv : Env Nat := ⟨demoListUnits, demoGetRemoteInfo⟩

/-- A cache that already holds an entry for `b`. -/
def demoCache : Cache := SetUnitInfo emptyCache "b" "old"

/-- A store whose listing fails from the third call on. -/
def failingListUnits (w : Nat) : Result (List String) × Nat :=
  if w < 2 then (Result.ok ["a"], w + 1) else (Result.err "store down", w + 1)

/-- Fetches that do not advance the world, so that the world counts the listings only. -/
def steadyGetRemoteInfo (w : Nat) (unit : String) : Result UnitInfo × Nat :=
  (Result.ok unit, w)

/-- Collaborators whose store breaks down after two cycles. -/
def failingEnv : Env Nat := ⟨failingListUnits, steadyGetRemoteInfo⟩

/-- An address parser that knows one address. -/
def demoParseIP (s : String) : IP :=
  if s = "8.8.8.8" then some [8, 8, 8, 8] else none

/-- A database that rejects the nil IP and places every address in Italy. -/
def demoReader : Reader :=
  ⟨fun ip =>
    match ip with
    | none => Result.err "IP passed to Lookup cannot be nil"
    | some _ => Result.ok ⟨⟨"IT"⟩⟩⟩

/-! ## Unfolding lemmas -/

theorem refreshUnits_cons_ok {W : Type} (env : Env W) (unit : String) (rest : List String)
    (w w1 : W) (c : Cache) (p : UnitInfo) (h : env.GetRemoteInfo w unit = (Result.ok p, w1)) :
    refreshUnits env (unit :: rest) w c =
      ⟨Call.GetRemoteInfo unit (Result.ok p) :: Call.SetUnitInfo unit p ::
          (refreshUnits env rest w1 (SetUnitInfo c unit p)).calls,
        (refreshUnits env rest w1 (SetUnitInfo c unit p)).world,
        (refreshUnits env rest w1 (SetUnitInfo c unit p)).cache⟩ := by
  simp only [refreshUnits, h]

theorem refreshUnits_cons_err {W : Type} (env : Env W) (unit : String) (rest : List String)
    (w w1 : W) (c : Cache) (e : String) (h : env.GetRemoteInfo w unit = (Result.err e, w1)) :
    refreshUnits env (unit :: rest) w c =
      ⟨Call.GetRemoteInfo unit (Result.err e) :: (refreshUnits env rest w1 c).calls,
        (refreshUnits env rest w1 c).world, (refreshUnits env rest w1 c).cache⟩ := by
  simp only [refreshUnits, h]

theorem cycle_err {W : Type} (env : Env W) (t : Int) (w w1 : W) (c : Cache) (e : String)
    (h : env.ListUnits w = (Result.err e, w1)) :
    cycle env t w c = (⟨[Call.Tick t, Call.ListUnits (Result.err e)], w1, c⟩, true) := by
  simp only [cycle, h]

theorem cycle_ok {W : Type} (env : Env W) (t : Int) (w w1 : W) (c : Cache) (units : List String)
    (h : env.ListUnits w = (Result.ok units, w1)) :
    cycle env t w c =
      (⟨Call.Tick t :: Call.ListUnits (Result.ok units) :: (refreshUnits env units w1 c).calls,
        (refreshUnits env units w1 c).world, (refreshUnits env units w1 c).cache⟩, false) := by
  simp only [cycle, h]

/-! ## The inner loop -/

theorem refreshUnits_fetched {W : Type} (env : Env W) (units : List String) (w : W) (c : Cache) :
    (fetches (refreshUnits env units w c).calls).map Prod.fst = units := by
  induction units generalizing w c with
  | nil => rfl
  | cons unit rest ih =>
    rcases h : env.GetRemoteInfo w unit with ⟨r, w1⟩
    cases r with
    | ok p => rw [refreshUnits_cons_ok env unit rest w w1 c p h]; simp [fetches, ih]
    | err e => rw [refreshUnits_cons_err env unit rest w w1 c e h]; simp [fetches, ih]

theorem refreshUnits_writes {W : Type} (env : Env W) (units : List String) (w : W) (c : Cache) :
    writes (refreshUnits env units w c).calls
      = succeeded (fetches (refreshUnits env units w c).calls) := by
  induction units generalizing w c with
  | nil => rfl
  | cons unit rest ih =>
    rcases h : env.GetRemoteInfo w unit with ⟨r, w1⟩
    cases r with
    | ok p =>
      rw [refreshUnits_cons_ok env unit rest w w1 c p h]; simp [fetches, writes, succeeded, ih]
    | err e =>
      rw [refreshUnits_cons_err env unit rest w w1 c e h]; simp [fetches, writes, succeeded, ih]

theorem refreshUnits_calls {W : Type} (env : Env W) (units : List String) (w : W) (c : Cache) :
    (refreshUnits env units w c).calls
      = (fetches (refreshUnits env units w c).calls).flatMap aroundFetch := by
  induction units generalizing w c with
  | nil => rfl
  | cons unit rest ih =>
    rcases h : env.GetRemoteInfo w unit with ⟨r, w1⟩
    cases r with
    | ok p =>
      rw [refreshUnits_cons_ok env unit rest w w1 c p h]
      simp only [fetches, List.flatMap_cons, aroundFetch, List.cons_append, List.nil_append]
      rw [← ih]
    | err e =>
      rw [refreshUnits_cons_err env unit rest w w1 c e h]
      simp only [fetches, List.flatMap_cons, aroundFetch, List.cons_append, List.nil_append]
      rw [← ih]

theorem refreshUnits_no_listing {W : Type} (env : Env W) (units : List String) (w : W)
    (c : Cache) :
    listings (refreshUnits env units w c).calls = []
      ∧ ticksOf (refreshUnits env units w c).calls = [] := by
  induction units generalizing w c with
  | nil => exact ⟨rfl, rfl⟩
  | cons unit rest ih =>
    rcases h : env.GetRemoteInfo w unit with ⟨r, w1⟩
    cases r with
    | ok p =>
      rw [refreshUnits_cons_ok env unit rest w w1 c p h]; simp [listings, ticksOf, ih]
    | err e =>
      rw [refreshUnits_cons_err env unit rest w w1 c e h]; simp [listings, ticksOf, ih]

theorem succeeded_length_add_failed (fs : List (String × Result UnitInfo)) :
    (succeeded fs).length + (failed fs).length = fs.length := by
  induction fs with
  | nil => rfl
  | cons f fs ih =>
    rcases f with ⟨u, r⟩
    cases r with
    | ok p => simp only [succeeded, failed, List.length_cons]; omega
    | err e => simp only [succeeded, failed, List.length_cons]; omega

theorem mem_fetches_of_mem {cs : List Call} {u : String} {r : Result UnitInfo}
    (h : Call.GetRemoteInfo u r ∈ cs) : (u, r) ∈ fetches cs := by
  induction cs with
  | nil => cases h
  | cons a cs ih =>
    rcases List.mem_cons.mp h with h1 | h1
    · subst h1; simp [fetches]
    · cases a <;> simp [fetches, ih h1]

theorem mem_of_mem_fetches {cs : List Call} {u : String} {r : Result UnitInfo}
    (h : (u, r) ∈ fetches cs) : Call.GetRemoteInfo u r ∈ cs := by
  induction cs with
  | nil => cases h
  | cons a cs ih =>
    cases a with
    | GetRemoteInfo u1 r1 =>
      simp only [fetches, List.mem_cons, Prod.mk.injEq] at h
      rcases h with ⟨h1, h2⟩ | h
      · subst h1; subst h2; exact List.mem_cons_self _ _
      · exact List.mem_cons_of_mem _ (ih h)
    | Tick t => exact List.mem_cons_of_mem _ (ih (by simpa [fetches] using h))
    | ListUnits r1 => exact List.mem_cons_of_mem _ (ih (by simpa [fetches] using h))
    | SetUnitInfo u1 p1 => exact List.mem_cons_of_mem _ (ih (by simpa [fetches] using h))

theorem refreshUnits_fetch_mem {W : Type} (env : Env W) (units : List String) (w : W)
    (c : Cache) (u : String) (r : Result UnitInfo)
    (h : Call.GetRemoteInfo u r ∈ (refreshUnits env units w c).calls) : u ∈ units := by
  have h1 := mem_fetches_of_mem h
  have h2 : (u, r).1 ∈ (fetches (refreshUnits env units w c).calls).map Prod.fst :=
    List.mem_map_of_mem _ h1
  rw [refreshUnits_fetched] at h2
  exact h2

/-- Frame property of the inner loop: a key with no successful fetch keeps its entry. -/
theorem refreshUnits_frame {W : Type} (env : Env W) (units : List String) (w : W) (c : Cache)
    (id : String)
    (h : ∀ p, Call.GetRemoteInfo id (Result.ok p) ∉ (refreshUnits env units w c).calls) :
    (refreshUnits env units w c).cache id = c id := by
  induction units generalizing w c with
  | nil => rfl
  | cons unit rest ih =>
    rcases hg : env.GetRemoteInfo w unit with ⟨r, w1⟩
    cases r with
    | ok p =>
      rw [refreshUnits_cons_ok env unit rest w w1 c p hg] at h ⊢
      have hne : id ≠ unit := by
        intro heq
        subst heq
        exact h p (List.mem_cons_self _ _)
      have := ih w1 (SetUnitInfo c unit p) (fun q hq =>
        h q (List.mem_cons_of_mem _ (List.mem_cons_of_mem _ hq)))
      simp only [this, SetUnitInfo, hne, if_false]
    | err e =>
      rw [refreshUnits_cons_err env unit rest w w1 c e hg] at h ⊢
      exact ih w1 c (fun q hq => h q (List.mem_cons_of_mem _ hq))

/-- With pairwise distinct units, a successful fetch is written and still there at the end. -/
theorem refreshUnits_stored {W : Type} (env : Env W) (units : List String) (w : W) (c : Cache)
    (hd : units.Nodup) (u : String) (p : UnitInfo)
    (h : Call.GetRemoteInfo u (Result.ok p) ∈ (refreshUnits env units w c).calls) :
    Call.SetUnitInfo u p ∈ (refreshUnits env units w c).calls
      ∧ (refreshUnits env units w c).cache u = some p := by
  induction units generalizing w c with
  | nil => cases h
  | cons unit rest ih =>
    have hnd := List.nodup_cons.mp hd
    rcases hg : env.GetRemoteInfo w unit with ⟨r, w1⟩
    cases r with
    | ok q =>
      rw [refreshUnits_cons_ok env unit rest w w1 c q hg] at h ⊢
      simp only [List.mem_cons, Call.GetRemoteInfo.injEq, Result.ok.injEq, reduceCtorEq,
        false_or] at h
      rcases h with ⟨h1, h2⟩ | h
      · subst h1; subst h2
        refine ⟨List.mem_cons_of_mem _ (List.mem_cons_self _ _), ?_⟩
        have hfr := refreshUnits_frame env rest w1 (SetUnitInfo c u p) u
          (fun q hq => hnd.1 (refreshUnits_fetch_mem env rest w1 _ u _ hq))
        simp only [hfr, SetUnitInfo, if_true]
      · have := ih w1 (SetUnitInfo c unit q) hnd.2 h
        exact ⟨List.mem_cons_of_mem _ (List.mem_cons_of_mem _ this.1), this.2⟩
    | err e =>
      rw [refreshUnits_cons_err env unit rest w w1 c e hg] at h ⊢
      simp only [List.mem_cons, Call.GetRemoteInfo.injEq, reduceCtorEq, and_false,
        false_or] at h
      have := ih w1 c hnd.2 h
      exact ⟨List.mem_cons_of_mem _ this.1, this.2⟩

/-! ## One cycle -/

theorem cycle_of_ok {W : Type} (env : Env W) (t : Int) (w : W) (c : Cache)
    (units : List String) (h : (env.ListUnits w).1 = Result.ok units) :
    cycle env t w c =
      (⟨Call.Tick t :: Call.ListUnits (Result.ok units) ::
          (refreshUnits env units (env.ListUnits w).2 c).calls,
        (refreshUnits env units (env.ListUnits w).2 c).world,
        (refreshUnits env units (env.ListUnits w).2 c).cache⟩, false) := by
  apply cycle_ok
  rw [← h]

theorem cycle_of_err {W : Type} (env : Env W) (t : Int) (w : W) (c : Cache)
    (e : String) (h : (env.ListUnits w).1 = Result.err e) :
    cycle env t w c
      = (⟨[Call.Tick t, Call.ListUnits (Result.err e)], (env.ListUnits w).2, c⟩, true) := by
  apply cycle_err
  rw [← h]

/-- C1: in a cycle whose `ListUnits` call succeeds with `units`, one `GetRemoteInfo` call is
made per listed unit, and when exactly `M` of these fetches succeed the cycle makes exactly `M`
`cache.SetUnitInfo` calls: the writes are, in order and with their payloads, the successful
fetches, so that the other `units.length - M` units get no write, wherever the failures sit. -/
theorem cycle_writes_exactly_successes {W : Type} (env : Env W) (t : Int) (w : W) (c : Cache)
    (units : List String) (M : Nat)
    (hList : (env.ListUnits w).1 = Result.ok units)
    (hM : (succeeded (fetches (cycle env t w c).1.calls)).length = M) :
    (fetches (cycle env t w c).1.calls).map Prod.fst = units
      ∧ M ≤ units.length
      ∧ (writes (cycle env t w c).1.calls).length = M
      ∧ writes (cycle env t w c).1.calls = succeeded (fetches (cycle env t w c).1.calls)
      ∧ (failed (fetches (cycle env t w c).1.calls)).length = units.length - M := by
  rw [cycle_of_ok env t w c units hList] at hM ⊢
  simp only [fetches, writes] at hM ⊢
  have hf := refreshUnits_fetched env units (env.ListUnits w).2 c
  have hw := refreshUnits_writes env units (env.ListUnits w).2 c
  have hlen := succeeded_length_add_failed
    (fetches (refreshUnits env units (env.ListUnits w).2 c).calls)
  have hN : (fetches (refreshUnits env units (env.ListUnits w).2 c).calls).length
      = units.length := by
    rw [← List.length_map _ Prod.fst, hf]
  refine ⟨hf, by omega, by rw [hw]; exact hM, hw, by omega⟩

theorem cycle_writes_exactly_successes_witness :
    (demoEnv.ListUnits 0).1 = Result.ok ["a", "b", "c"]
      ∧ (succeeded (fetches (cycle demoEnv 60 0 emptyCache).1.calls)).length = 2
      ∧ (writes (cycle demoEnv 60 0 emptyCache).1.calls).length = 2
      ∧ (failed (fetches (cycle demoEnv 60 0 emptyCache).1.calls)).length = 3 - 2 :=
  ⟨rfl, rfl,
    (cycle_writes_exactly_successes demoEnv 60 0 emptyCache ["a", "b", "c"] 2 rfl rfl).2.2.1,
    (cycle_writes_exactly_successes demoEnv 60 0 emptyCache ["a", "b", "c"] 2 rfl rfl).2.2.2.2⟩

/-- C3: whatever the cache holds before a cycle, a unit id for which no `GetRemoteInfo` call of
that cycle succeeded (its fetch failed, it was not listed, or the listing itself failed) has
after the cycle the very entry it had before: nothing is removed or overwritten. -/
theorem cycle_keeps_entry_without_successful_fetch {W : Type} (env : Env W) (t : Int) (w : W)
    (c : Cache) (id : String)
    (h : ∀ p, Call.GetRemoteInfo id (Result.ok p) ∉ (cycle env t w c).1.calls) :
    GetUnitInfo (cycle env t w c).1.cache id = GetUnitInfo c id := by
  rcases hl : env.ListUnits w with ⟨r, w1⟩
  cases r with
  | err e => rw [cycle_err env t w w1 c e hl]
  | ok units =>
    rw [cycle_ok env t w w1 c units hl] at h ⊢
    exact refreshUnits_frame env units w1 c id
      (fun p hp => h p (List.mem_cons_of_mem _ (List.mem_cons_of_mem _ hp)))

theorem cycle_keeps_entry_without_successful_fetch_witness :
    (∀ p, Call.GetRemoteInfo "b" (Result.ok p) ∉ (cycle demoEnv 60 0 demoCache).1.calls)
      ∧ GetUnitInfo (cycle demoEnv 60 0 demoCache).1.cache "b" = some "old" :=
  have h : ∀ p, Call.GetRemoteInfo "b" (Result.ok p) ∉ (cycle demoEnv 60 0 demoCache).1.calls := by
    intro p hp
    have hc : (cycle demoEnv 60 0 demoCache).1.calls =
        [Call.Tick 60, Call.ListUnits (Result.ok ["a", "b", "c"]),
         Call.GetRemoteInfo "a" (Result.ok "a@1"), Call.SetUnitInfo "a" "a@1",
         Call.GetRemoteInfo "b" (Result.err "unreachable"),
         Call.GetRemoteInfo "c" (Result.ok "c@3"), Call.SetUnitInfo "c" "c@3"] := rfl
    rw [hc] at hp
    simp at hp
  ⟨h, (cycle_keeps_entry_without_successful_fetch demoEnv 60 0 demoCache "b" h).trans rfl⟩

/-- C4: in a cycle whose `ListUnits` call succeeds with pairwise distinct unit ids, every
`GetRemoteInfo` call that succeeds for a unit with payload `p` is followed by the call
`cache.SetUnitInfo(unit, p)` with that unit and that payload, and at the end of the cycle the
cache entry of the unit is `p`. -/
theorem cycle_stores_fetched_payload {W : Type} (env : Env W) (t : Int) (w : W) (c : Cache)
    (units : List String) (unit : String) (p : UnitInfo)
    (hList : (env.ListUnits w).1 = Result.ok units)
    (hDistinct : units.Nodup)
    (hFetch : Call.GetRemoteInfo unit (Result.ok p) ∈ (cycle env t w c).1.calls) :
    unit ∈ units
      ∧ [Call.GetRemoteInfo unit (Result.ok p), Call.SetUnitInfo unit p]
          <:+: (cycle env t w c).1.calls
      ∧ GetUnitInfo (cycle env t w c).1.cache unit = some p := by
  rw [cycle_of_ok env t w c units hList] at hFetch ⊢
  simp only [List.mem_cons, reduceCtorEq, false_or] at hFetch
  have hs := refreshUnits_stored env units (env.ListUnits w).2 c hDistinct unit p hFetch
  refine ⟨refreshUnits_fetch_mem env units _ c unit _ hFetch, ?_, hs.2⟩
  have hin : [Call.GetRemoteInfo unit (Result.ok p), Call.SetUnitInfo unit p]
      <:+: (refreshUnits env units (env.ListUnits w).2 c).calls := by
    rw [refreshUnits_calls]
    have hm := mem_fetches_of_mem hFetch
    obtain ⟨l1, l2, hsplit⟩ := List.append_of_mem hm
    rw [hsplit, List.flatMap_append, List.flatMap_cons]
    exact ⟨l1.flatMap aroundFetch, l2.flatMap aroundFetch, by simp [aroundFetch]⟩
  obtain ⟨l1, l2, hl⟩ := hin
  exact ⟨Call.Tick t :: Call.ListUnits (Result.ok units) :: l1, l2, by simp [← hl]⟩

theorem cycle_stores_fetched_payload_witness :
    (demoEnv.ListUnits 0).1 = Result.ok ["a", "b", "c"]
      ∧ ["a", "b", "c"].Nodup
      ∧ Call.GetRemoteInfo "c" (Result.ok "c@3") ∈ (cycle demoEnv 60 0 demoCache).1.calls
      ∧ GetUnitInfo (cycle demoEnv 60 0 demoCache).1.cache "c" = some "c@3" :=
  ⟨rfl, by decide, by decide,
    (cycle_stores_fetched_payload demoEnv 60 0 demoCache ["a", "b", "c"] "c" "c@3" rfl
      (by decide) (by decide)).2.2⟩

/-! ## The tick loop -/

theorem loopOver_cons_continue {W : Type} (env : Env W) (t : Int) (ticks : List Int) (w : W)
    (c : Cache) (h : (cycle env t w c).2 = false) :
    loopOver env (t :: ticks) w c =
      ⟨(cycle env t w c).1.calls
          ++ (loopOver env ticks (cycle env t w c).1.world (cycle env t w c).1.cache).calls,
        (loopOver env ticks (cycle env t w c).1.world (cycle env t w c).1.cache).world,
        (loopOver env ticks (cycle env t w c).1.world (cycle env t w c).1.cache).cache,
        (loopOver env ticks (cycle env t w c).1.world (cycle env t w c).1.cache).returned⟩ := by
  rcases hc : cycle env t w c with ⟨r, b⟩
  rw [hc] at h
  simp only at h
  subst h
  simp only [loopOver, hc]

theorem loopOver_cons_return {W : Type} (env : Env W) (t : Int) (ticks : List Int) (w : W)
    (c : Cache) (h : (cycle env t w c).2 = true) :
    loopOver env (t :: ticks) w c =
      ⟨(cycle env t w c).1.calls, (cycle env t w c).1.world, (cycle env t w c).1.cache, true⟩ := by
  rcases hc : cycle env t w c with ⟨r, b⟩
  rw [hc] at h
  simp only at h
  subst h
  simp only [loopOver, hc]

/-- Running the loop over `a ++ b` is running it over `a` and, unless it returned, over `b`. -/
theorem loopOver_append {W : Type} (env : Env W) (a b : List Int) (w : W) (c : Cache) :
    loopOver env (a ++ b) w c =
      if (loopOver env a w c).returned then loopOver env a w c
      else
        ⟨(loopOver env a w c).calls
            ++ (loopOver env b (loopOver env a w c).world (loopOver env a w c).cache).calls,
          (loopOver env b (loopOver env a w c).world (loopOver env a w c).cache).world,
          (loopOver env b (loopOver env a w c).world (loopOver env a w c).cache).cache,
          (loopOver env b (loopOver env a w c).world (loopOver env a w c).cache).returned⟩ := by
  induction a generalizing w c with
  | nil => simp [loopOver]
  | cons t a ih =>
    cases hb : (cycle env t w c).2 with
    | true =>
      rw [List.cons_append, loopOver_cons_return env t (a ++ b) w c hb,
        loopOver_cons_return env t a w c hb]
      simp
    | false =>
      rw [List.cons_append, loopOver_cons_continue env t (a ++ b) w c hb,
        loopOver_cons_continue env t a w c hb, ih]
      by_cases hr : (loopOver env a (cycle env t w c).1.world (cycle env t w c).1.cache).returned
      · simp [hr]
      · simp [hr, List.append_assoc]

theorem Ticker.C_succ (t : Ticker) (n : Nat) :
    t.C (n + 1) = t.C n ++ [((n : Int) + 1) * t.period] := by
  simp [Ticker.C, List.range_succ]

theorem Ticker.C_add (t : Ticker) (n m : Nat) :
    t.C (n + m) = t.C n ++ (List.range m).map (fun (k : Nat) => ((n : Int) + (k : Int) + 1) * t.period) := by
  induction m with
  | zero => simp
  | succ m ih =>
    rw [← Nat.add_assoc, Ticker.C_succ, ih, List.range_succ, List.map_append, List.append_assoc]
    simp

/-- Once the loop has returned, further ticks change nothing. -/
theorem loopOver_append_of_returned {W : Type} (env : Env W) (a b : List Int) (w : W)
    (c : Cache) (h : (loopOver env a w c).returned = true) :
    loopOver env (a ++ b) w c = loopOver env a w c := by
  rw [loopOver_append, if_pos h]

/-- C5: in a cycle whose `ListUnits` call succeeds with `units`, `GetRemoteInfo` is called once
per unit, in the order of the snapshot, whether or not earlier fetches failed; the calls of the
cycle are the tick, the listing, and then for each fetch in turn the fetch itself directly
followed by its cache write when it succeeded (so a write precedes the next fetch and a failed
fetch is not repeated); the cycle does not return from the loop, which goes on with the next
ticks from the state the cycle left. -/
theorem cycle_fetches_each_unit_in_order {W : Type} (env : Env W) (t : Int) (ticks : List Int)
    (w : W) (c : Cache) (units : List String)
    (hList : (env.ListUnits w).1 = Result.ok units) :
    (fetches (cycle env t w c).1.calls).map Prod.fst = units
      ∧ (cycle env t w c).1.calls
          = Call.Tick t :: Call.ListUnits (Result.ok units)
              :: (fetches (cycle env t w c).1.calls).flatMap aroundFetch
      ∧ (cycle env t w c).2 = false
      ∧ (loopOver env [t] w c).returned = false
      ∧ (loopOver env (t :: ticks) w c).calls
          = (cycle env t w c).1.calls
              ++ (loopOver env ticks (cycle env t w c).1.world (cycle env t w c).1.cache).calls := by
  have hb : (cycle env t w c).2 = false := by rw [cycle_of_ok env t w c units hList]
  refine ⟨?_, ?_, hb, ?_, ?_⟩
  · rw [cycle_of_ok env t w c units hList]
    simp only [fetches]
    exact refreshUnits_fetched env units _ c
  · rw [cycle_of_ok env t w c units hList]
    simp only [fetches]
    rw [← refreshUnits_calls]
  · rw [loopOver_cons_continue env t [] w c hb]
    rfl
  · rw [loopOver_cons_continue env t ticks w c hb]

theorem cycle_fetches_each_unit_in_order_witness :
    (demoEnv.ListUnits 0).1 = Result.ok ["a", "b", "c"]
      ∧ (fetches (cycle demoEnv 60 0 emptyCache).1.calls).map Prod.fst = ["a", "b", "c"]
      ∧ (cycle demoEnv 60 0 emptyCache).1.calls =
          [Call.Tick 60, Call.ListUnits (Result.ok ["a", "b", "c"]),
           Call.GetRemoteInfo "a" (Result.ok "a@1"), Call.SetUnitInfo "a" "a@1",
           Call.GetRemoteInfo "b" (Result.err "unreachable"),
           Call.GetRemoteInfo "c" (Result.ok "c@3"), Call.SetUnitInfo "c" "c@3"] :=
  ⟨rfl, (cycle_fetches_each_unit_in_order demoEnv 60 [] 0 emptyCache ["a", "b", "c"] rfl).1,
    (cycle_fetches_each_unit_in_order demoEnv 60 [] 0 emptyCache ["a", "b", "c"] rfl).2.1.trans
      rfl⟩

/-- C2: if the loop is still running after `j` ticks and the `ListUnits` call of the next cycle
returns an error, then that cycle consists of the tick and the failed listing alone (no fetch,
no cache write), the function returns, and however many further ticks `m` the ticker delivers,
the calls made and the cache stay as they were: no later `ListUnits`, `GetRemoteInfo` or
`cache.SetUnitInfo` call is made. `main` starts the loop once, before building the router, and
has no other statement that would start it again. -/
theorem list_error_stops_loop_for_good {W : Type} (env : Env W) (w : W) (c : Cache) (j : Nat)
    (e : String)
    (hRunning : (refreshCacheLoop env j w c).returned = false)
    (hList : (env.ListUnits (refreshCacheLoop env j w c).world).1 = Result.err e) :
    ∀ m : Nat,
      (refreshCacheLoop env (j + 1 + m) w c).calls
          = (refreshCacheLoop env j w c).calls
              ++ [Call.Tick (((j : Int) + 1) * (60 * Minute)), Call.ListUnits (Result.err e)]
        ∧ (refreshCacheLoop env (j + 1 + m) w c).cache = (refreshCacheLoop env j w c).cache
        ∧ (refreshCacheLoop env (j + 1 + m) w c).returned = true
        ∧ ∀ mode, (main mode).startup.count Startup.goRefreshCacheLoop = 1 := by
  intro m
  have hstep : loopOver env ((NewTicker (60 * Minute)).C (j + 1)) w c =
      ⟨(refreshCacheLoop env j w c).calls
          ++ [Call.Tick (((j : Int) + 1) * (60 * Minute)), Call.ListUnits (Result.err e)],
        (env.ListUnits (refreshCacheLoop env j w c).world).2,
        (refreshCacheLoop env j w c).cache, true⟩ := by
    rw [Ticker.C_succ, loopOver_append]
    have hr : (loopOver env ((NewTicker (60 * Minute)).C j) w c).returned = false := hRunning
    rw [if_neg (by simp [hr])]
    have hcy := cycle_of_err env (((j : Int) + 1) * (NewTicker (60 * Minute)).period)
      (loopOver env ((NewTicker (60 * Minute)).C j) w c).world
      (loopOver env ((NewTicker (60 * Minute)).C j) w c).cache e hList
    rw [loopOver_cons_return env _ [] _ _ (by rw [hcy]), hcy]
    rfl
  have hall : refreshCacheLoop env (j + 1 + m) w c
      = loopOver env ((NewTicker (60 * Minute)).C (j + 1)) w c := by
    unfold refreshCacheLoop
    rw [Ticker.C_add, loopOver_append_of_returned]
    rw [hstep]
  rw [hall, hstep]
  refine ⟨rfl, rfl, rfl, ?_⟩
  intro mode
  cases mode <;> rfl

theorem list_error_stops_loop_for_good_witness :
    (refreshCacheLoop failingEnv 2 0 emptyCache).returned = false
      ∧ (failingEnv.ListUnits (refreshCacheLoop failingEnv 2 0 emptyCache).world).1
          = Result.err "store down"
      ∧ (refreshCacheLoop failingEnv (2 + 1 + 5) 0 emptyCache).calls
          = [Call.Tick (60 * Minute), Call.ListUnits (Result.ok ["a"]),
             Call.GetRemoteInfo "a" (Result.ok "a"), Call.SetUnitInfo "a" "a",
             Call.Tick (2 * (60 * Minute)), Call.ListUnits (Result.ok ["a"]),
             Call.GetRemoteInfo "a" (Result.ok "a"), Call.SetUnitInfo "a" "a",
             Call.Tick (3 * (60 * Minute)), Call.ListUnits (Result.err "store down")] :=
  ⟨rfl, rfl,
    (list_error_stops_loop_for_good failingEnv 0 emptyCache 2 "store down" rfl rfl 5).1.trans
      (by decide)⟩

/-! ## Cycles and ticks -/

theorem ticksOf_append (a b : List Call) : ticksOf (a ++ b) = ticksOf a ++ ticksOf b := by
  induction a with
  | nil => rfl
  | cons x a ih => cases x <;> simp [ticksOf, ih]

theorem listings_append (a b : List Call) : listings (a ++ b) = listings a ++ listings b := by
  induction a with
  | nil => rfl
  | cons x a ih => cases x <;> simp [listings, ih]

theorem cycle_ticks_listings {W : Type} (env : Env W) (t : Int) (w : W) (c : Cache) :
    ticksOf (cycle env t w c).1.calls = [t]
      ∧ (listings (cycle env t w c).1.calls).length = 1 := by
  rcases h : env.ListUnits w with ⟨r, w1⟩
  cases r with
  | err e => rw [cycle_err env t w w1 c e h]; simp [ticksOf, listings]
  | ok units =>
    rw [cycle_ok env t w w1 c units h]
    simp [ticksOf, listings, refreshUnits_no_listing env units w1 c]

theorem loopOver_ticks {W : Type} (env : Env W) (ticks : List Int) (w : W) (c : Cache) :
    ticksOf (loopOver env ticks w c).calls <+: ticks
      ∧ (listings (loopOver env ticks w c).calls).length
          = (ticksOf (loopOver env ticks w c).calls).length := by
  induction ticks generalizing w c with
  | nil => simp [loopOver, ticksOf, listings]
  | cons t ticks ih =>
    have hc := cycle_ticks_listings env t w c
    cases hb : (cycle env t w c).2 with
    | true =>
      rw [loopOver_cons_return env t ticks w c hb]
      simp only [hc.1, hc.2, List.length_singleton, and_true]
      exact ⟨ticks, rfl⟩
    | false =>
      rw [loopOver_cons_continue env t ticks w c hb]
      have h := ih (cycle env t w c).1.world (cycle env t w c).1.cache
      simp only [ticksOf_append, listings_append, hc.1, List.length_append, hc.2,
        List.length_singleton, h.2, and_true]
      exact (List.prefix_cons_inj t).mpr h.1

theorem run_append (ph : Phase) (a b : List Call) :
    ph.run (a ++ b) = (ph.run a).bind (fun ph1 => ph1.run b) := by
  induction a generalizing ph with
  | nil => rfl
  | cons x a ih =>
    simp only [List.cons_append, Phase.run]
    cases ph.step x with
    | none => rfl
    | some ph1 => exact ih ph1

theorem refreshUnits_run {W : Type} (env : Env W) (units : List String) (w : W) (c : Cache) :
    Phase.running.run (refreshUnits env units w c).calls = some Phase.running := by
  induction units generalizing w c with
  | nil => rfl
  | cons unit rest ih =>
    rcases h : env.GetRemoteInfo w unit with ⟨r, w1⟩
    cases r with
    | ok p =>
      rw [refreshUnits_cons_ok env unit rest w w1 c p h]
      simp only [Phase.run, Phase.step]
      exact ih w1 _
    | err e =>
      rw [refreshUnits_cons_err env unit rest w w1 c e h]
      simp only [Phase.run, Phase.step]
      exact ih w1 _

theorem cycle_run {W : Type} (env : Env W) (t : Int) (w : W) (c : Cache) (ph : Phase)
    (hph : ph ≠ Phase.ticked) :
    ph.run (cycle env t w c).1.calls = some Phase.running := by
  rcases h : env.ListUnits w with ⟨r, w1⟩
  cases r with
  | err e =>
    rw [cycle_err env t w w1 c e h]
    cases ph
    · rfl
    · exact absurd rfl hph
    · rfl
  | ok units =>
    rw [cycle_ok env t w w1 c units h]
    have hr := refreshUnits_run env units w1 c
    cases ph
    · simpa only [Phase.run, Phase.step] using hr
    · exact absurd rfl hph
    · simpa only [Phase.run, Phase.step] using hr

theorem loopOver_run {W : Type} (env : Env W) (ticks : List Int) (w : W) (c : Cache)
    (ph : Phase) (hph : ph ≠ Phase.ticked) :
    ∃ ph1, ph.run (loopOver env ticks w c).calls = some ph1 ∧ ph1 ≠ Phase.ticked := by
  induction ticks generalizing w c ph with
  | nil => exact ⟨ph, rfl, hph⟩
  | cons t ticks ih =>
    cases hb : (cycle env t w c).2 with
    | true =>
      rw [loopOver_cons_return env t ticks w c hb]
      exact ⟨Phase.running, cycle_run env t w c ph hph, by decide⟩
    | false =>
      rw [loopOver_cons_continue env t ticks w c hb]
      simp only [run_append, cycle_run env t w c ph hph, Option.some_bind]
      exact ih _ _ Phase.running (by decide)

/-- In a well-shaped trace a listing is directly preceded by a tick. -/
theorem tick_before_listing (pre : List Call) (r : Result (List String)) (post : List Call)
    (ph ph1 : Phase) (h : ph.run (pre ++ Call.ListUnits r :: post) = some ph1) :
    (pre = [] ∧ ph = Phase.ticked) ∨ ∃ pre1 t, pre = pre1 ++ [Call.Tick t] := by
  induction pre generalizing ph with
  | nil =>
    left
    refine ⟨rfl, ?_⟩
    cases ph <;> simp [Phase.run, Phase.step] at h ⊢
  | cons x pre ih =>
    right
    simp only [List.cons_append, Phase.run] at h
    cases hs : ph.step x with
    | none => rw [hs] at h; cases h
    | some ph2 =>
      rw [hs] at h
      rcases ih ph2 h with ⟨hnil, hph2⟩ | ⟨pre1, t, hpre⟩
      · subst hnil; subst hph2
        cases x with
        | Tick t => exact ⟨[], t, rfl⟩
        | ListUnits r1 => cases ph <;> simp [Phase.step] at hs
        | GetRemoteInfo u r1 => cases ph <;> simp [Phase.step] at hs
        | SetUnitInfo u p => cases ph <;> simp [Phase.step] at hs
      · exact ⟨x :: pre1, t, by rw [hpre]; rfl⟩

/-- In a well-shaped trace that does not stop on a tick, a tick is directly followed by a
listing. -/
theorem listing_after_tick (pre : List Call) (t : Int) (post : List Call)
    (ph ph1 : Phase) (h : ph.run (pre ++ Call.Tick t :: post) = some ph1)
    (hend : ph1 ≠ Phase.ticked) :
    ∃ r post1, post = Call.ListUnits r :: post1 := by
  induction pre generalizing ph with
  | nil =>
    simp only [List.nil_append, Phase.run] at h
    cases hs : ph.step (Call.Tick t) with
    | none => rw [hs] at h; cases h
    | some ph2 =>
      rw [hs] at h
      have hph2 : ph2 = Phase.ticked := by
        cases ph <;> simp [Phase.step] at hs <;> exact hs.symm
      subst hph2
      cases post with
      | nil =>
        simp only [Phase.run, Option.some.injEq] at h
        exact absurd h.symm hend
      | cons y post1 =>
        cases y with
        | ListUnits r => exact ⟨r, post1, rfl⟩
        | Tick t1 => simp [Phase.run, Phase.step] at h
        | GetRemoteInfo u r1 => simp [Phase.run, Phase.step] at h
        | SetUnitInfo u p => simp [Phase.run, Phase.step] at h
  | cons x pre ih =>
    simp only [List.cons_append, Phase.run] at h
    cases hs : ph.step x with
    | none => rw [hs] at h; cases h
    | some ph2 =>
      rw [hs] at h
      exact ih ph2 h

/-- A well-shaped trace that starts idle is empty or starts with a tick. -/
theorem starts_with_tick (cs : List Call) (ph1 : Phase) (h : Phase.idle.run cs = some ph1) :
    cs = [] ∨ ∃ t rest, cs = Call.Tick t :: rest := by
  cases cs with
  | nil => exact Or.inl rfl
  | cons x rest =>
    right
    cases x with
    | Tick t => exact ⟨t, rest, rfl⟩
    | ListUnits r => simp [Phase.run, Phase.step] at h
    | GetRemoteInfo u r => simp [Phase.run, Phase.step] at h
    | SetUnitInfo u p => simp [Phase.run, Phase.step] at h

/-- C7: the ticker of `refreshCacheLoop` has a period of 60 minutes; with no tick received the
loop has made no call at all and the cache is untouched; after `n` ticks the ticks consumed are
an initial part of the ticker's first `n` ticks (the `k`-th at `k` times 60 minutes), there are
as many `ListUnits` calls as ticks consumed, at most `n`; every `ListUnits` call comes directly
after a tick, every tick consumed is directly followed by one `ListUnits` call, and the first
call, if any, is a tick, so no listing, fetch or cache write precedes the first tick. -/
theorem loop_cycles_start_on_ticks_only {W : Type} (env : Env W) (n : Nat) (w : W) (c : Cache) :
    (NewTicker (60 * Minute)).period = 60 * 60 * 1000000000
      ∧ (NewTicker (60 * Minute)).C n
          = (List.range n).map (fun (k : Nat) => ((k : Int) + 1) * (60 * 60 * 1000000000))
      ∧ (refreshCacheLoop env 0 w c).calls = []
      ∧ (refreshCacheLoop env 0 w c).cache = c
      ∧ ticksOf (refreshCacheLoop env n w c).calls <+: (NewTicker (60 * Minute)).C n
      ∧ (listings (refreshCacheLoop env n w c).calls).length
          = (ticksOf (refreshCacheLoop env n w c).calls).length
      ∧ (ticksOf (refreshCacheLoop env n w c).calls).length ≤ n
      ∧ (∀ pre r post, (refreshCacheLoop env n w c).calls = pre ++ Call.ListUnits r :: post →
          ∃ pre1 t, pre = pre1 ++ [Call.Tick t])
      ∧ (∀ pre t post, (refreshCacheLoop env n w c).calls = pre ++ Call.Tick t :: post →
          ∃ r post1, post = Call.ListUnits r :: post1)
      ∧ ((refreshCacheLoop env n w c).calls = []
          ∨ ∃ t rest, (refreshCacheLoop env n w c).calls = Call.Tick t :: rest) := by
  have hp : (NewTicker (60 * Minute)).period = 60 * 60 * 1000000000 := by
    simp [NewTicker, Minute, Second, Nanosecond]
  have ht := loopOver_ticks env ((NewTicker (60 * Minute)).C n) w c
  obtain ⟨ph1, hrun, hne⟩ :=
    loopOver_run env ((NewTicker (60 * Minute)).C n) w c Phase.idle (by decide)
  refine ⟨hp, ?_, rfl, rfl, ht.1, ht.2, ?_, ?_, ?_, ?_⟩
  · simp only [Ticker.C, hp]
  · have := ht.1.length_le
    simpa [Ticker.C] using this
  · intro pre r post hcalls
    have h : Phase.idle.run (pre ++ Call.ListUnits r :: post) = some ph1 := by
      rw [← hcalls]; exact hrun
    rcases tick_before_listing pre r post Phase.idle ph1 h with ⟨_, hph⟩ | h1
    · cases hph
    · exact h1
  · intro pre t post hcalls
    have h : Phase.idle.run (pre ++ Call.Tick t :: post) = some ph1 := by
      rw [← hcalls]; exact hrun
    exact listing_after_tick pre t post Phase.idle ph1 h hne
  · exact starts_with_tick _ ph1 hrun

theorem loop_cycles_start_on_ticks_only_witness :
    (listings (refreshCacheLoop failingEnv 5 0 emptyCache).calls).length = 3
      ∧ (∃ pre1 t,
          [Call.Tick (60 * Minute), Call.ListUnits (Result.ok ["a"]),
            Call.GetRemoteInfo "a" (Result.ok "a"), Call.SetUnitInfo "a" "a",
            Call.Tick (2 * (60 * Minute))] = pre1 ++ [Call.Tick t])
      ∧ (∃ r post1,
          [Call.ListUnits (Result.err "store down")] = Call.ListUnits r :: post1) :=
  ⟨(loop_cycles_start_on_ticks_only failingEnv 5 0 emptyCache).2.2.2.2.2.1.trans (by decide),
    (loop_cycles_start_on_ticks_only failingEnv 5 0 emptyCache).2.2.2.2.2.2.2.1
      [Call.Tick (60 * Minute), Call.ListUnits (Result.ok ["a"]),
        Call.GetRemoteInfo "a" (Result.ok "a"), Call.SetUnitInfo "a" "a",
        Call.Tick (2 * (60 * Minute))]
      (Result.ok ["a"])
      [Call.GetRemoteInfo "a" (Result.ok "a"), Call.SetUnitInfo "a" "a",
        Call.Tick (3 * (60 * Minute)), Call.ListUnits (Result.err "store down")]
      (by decide),
    (loop_cycles_start_on_ticks_only failingEnv 5 0 emptyCache).2.2.2.2.2.2.2.2.1
      [Call.Tick (60 * Minute), Call.ListUnits (Result.ok ["a"]),
        Call.GetRemoteInfo "a" (Result.ok "a"), Call.SetUnitInfo "a" "a",
        Call.Tick (2 * (60 * Minute)), Call.ListUnits (Result.ok ["a"]),
        Call.GetRemoteInfo "a" (Result.ok "a"), Call.SetUnitInfo "a" "a"]
      (3 * (60 * Minute))
      [Call.ListUnits (Result.err "store down")]
      (by decide)⟩

/-! ## Registration request -/

theorem bindingErrors_fields (r : RegisterRequest) :
    bindingErrors r.fields = [] ↔
      r.UnitId ≠ "" ∧ r.Username ≠ "" ∧ r.Password ≠ "" ∧ r.UnitName ≠ "" := by
  rcases r with ⟨a, b, c, d, e, f, g⟩
  by_cases ha : a = "" <;> by_cases hb : b = "" <;> by_cases hc : c = "" <;>
    by_cases hd : d = "" <;>
    simp [bindingErrors, RegisterRequest.fields, List.filter_cons, ha, hb, hc, hd]

/-- C6: a registration request passes field validation exactly when `unit_id`, `username`,
`password` and `unit_name` are all non-empty; a request lacking any of the four is rejected with
a validation error; and the values of `version`, `subscription_type` and `system_id`, present
or not, leave the outcome of validation unchanged. -/
theorem register_validation_iff_required_present (r : RegisterRequest) (v s i : String) :
    (validate r = Result.ok () ↔
        r.UnitId ≠ "" ∧ r.Username ≠ "" ∧ r.Password ≠ "" ∧ r.UnitName ≠ "")
      ∧ ((r.UnitId = "" ∨ r.Username = "" ∨ r.Password = "" ∨ r.UnitName = "") ↔
          ∃ msg, validate r = Result.err msg)
      ∧ validate { r with Version := v, SubscriptionType := s, SystemId := i } = validate r := by
  have hiff := bindingErrors_fields r
  have hval : validate r = Result.ok () ↔ bindingErrors r.fields = [] := by
    unfold validate
    cases bindingErrors r.fields with
    | nil => simp
    | cons x xs => simp
  refine ⟨hval.trans hiff, ?_, ?_⟩
  · constructor
    · intro h
      have hne : bindingErrors r.fields ≠ [] := by
        intro h0
        have := hiff.mp h0
        tauto
      unfold validate
      cases hb : bindingErrors r.fields with
      | nil => exact absurd hb hne
      | cons x xs => exact ⟨_, rfl⟩
    · rintro ⟨msg, hmsg⟩
      by_contra hcon
      have hall : r.UnitId ≠ "" ∧ r.Username ≠ "" ∧ r.Password ≠ "" ∧ r.UnitName ≠ "" := by
        tauto
      rw [(hval.trans hiff).mpr hall] at hmsg
      cases hmsg
  · have : bindingErrors
        ({ r with Version := v, SubscriptionType := s, SystemId := i } : RegisterRequest).fields
        = bindingErrors r.fields := by
      simp [bindingErrors, RegisterRequest.fields, List.filter_cons]
    unfold validate
    rw [this]

/-! ## Route table -/

/-- C8: whatever the gin mode, the endpoints of the route table whose handler chain lacks the
JWT middleware are `POST /login`, `POST /logout` and `POST /units/register`, the three that are
registered before `api.Use`; all the others (`GET /refresh`, the `/accounts` routes,
`GET /defaults` and the five `/units` routes) are registered after it and have the JWT
middleware in their chain, ahead of the endpoint handler. -/
theorem only_login_logout_register_skip_jwt (mode : Mode) :
    (((main mode).routes.filter (fun r => !r.guarded)).map Route.key
        = [(Method.POST, "/login"), (Method.POST, "/logout"), (Method.POST, "/units/register")])
      ∧ (((main mode).routes.filter (fun r => r.guarded)).map Route.key
        = [(Method.GET, "/refresh"),
           (Method.GET, "/accounts"), (Method.GET, "/accounts/:account_id"),
           (Method.POST, "/accounts"), (Method.PUT, "/accounts/:account_id"),
           (Method.DELETE, "/accounts/:account_id"), (Method.PUT, "/accounts/password"),
           (Method.GET, "/accounts/ssh-keys"), (Method.POST, "/accounts/ssh-keys"),
           (Method.DELETE, "/accounts/ssh-keys"),
           (Method.GET, "/defaults"),
           (Method.GET, "/units"), (Method.GET, "/units/:unit_id"),
           (Method.GET, "/units/:unit_id/token"), (Method.POST, "/units"),
           (Method.DELETE, "/units/:unit_id")])
      ∧ ((main mode).routes.map Route.guarded
        = List.replicate 3 false ++ List.replicate 16 true)
      ∧ (((main mode).routes.filter (fun r => r.guarded)).map
            (fun r => r.handlers.dropLast.getLast?)
        = List.replicate 16 (some Handler.JWTMiddlewareFunc)) := by
  cases mode <;> decide

/-! ## GeoIP -/

/-- C9: `GetCountryShort` returns the empty string without any lookup when `ip` is empty or
the database is not loaded; with a non-empty `ip` and a loaded database it performs one lookup,
on `net.ParseIP(ip)` as it is (the nil IP when the text is not an address), and returns the ISO
code of the country of the record when the lookup succeeds, while an error of the lookup ends
the process through `log.Fatal` with that error and no value is returned. -/
theorem getCountryShort_cases (ParseIP : String → IP) (db : Option Reader) (ip : String) :
    (ip = "" ∨ db = none → GetCountryShort ParseIP db ip = ([], Exit.returns ""))
      ∧ (∀ reader record, ip ≠ "" → db = some reader →
          reader.City (ParseIP ip) = Result.ok record →
          GetCountryShort ParseIP db ip = ([ParseIP ip], Exit.returns record.Country.IsoCode))
      ∧ (∀ reader e, ip ≠ "" → db = some reader →
          reader.City (ParseIP ip) = Result.err e →
          GetCountryShort ParseIP db ip = ([ParseIP ip], Exit.fatal e))
      ∧ (∀ reader, ip ≠ "" → db = some reader → ParseIP ip = none →
          (GetCountryShort ParseIP db ip).1 = [none]) := by
  refine ⟨?_, ?_, ?_, ?_⟩
  · rintro (h | h)
    · subst h; cases db <;> rfl
    · subst h
      by_cases hip : ip = "" <;> simp [GetCountryShort, hip]
  · intro reader record hip hdb hc
    subst hdb
    simp [GetCountryShort, hip, hc]
  · intro reader e hip hdb hc
    subst hdb
    simp [GetCountryShort, hip, hc]
  · intro reader hip hdb hp
    subst hdb
    cases hc : reader.City (ParseIP ip) <;> simp [GetCountryShort, hip, hc] <;> exact hp

theorem getCountryShort_cases_witness :
    GetCountryShort demoParseIP none "8.8.8.8" = ([], Exit.returns "")
      ∧ GetCountryShort demoParseIP (some demoReader) "8.8.8.8"
          = ([some [8, 8, 8, 8]], Exit.returns "IT")
      ∧ GetCountryShort demoParseIP (some demoReader) "nonsense"
          = ([none], Exit.fatal "IP passed to Lookup cannot be nil") :=
  ⟨(getCountryShort_cases demoParseIP none "8.8.8.8").1 (Or.inr rfl),
    (getCountryShort_cases demoParseIP (some demoReader) "8.8.8.8").2.1 demoReader ⟨⟨"IT"⟩⟩
      (by decide) rfl rfl,
    (getCountryShort_cases demoParseIP (some demoReader) "nonsense").2.2.1 demoReader
      "IP passed to Lookup cannot be nil" (by decide) rfl rfl⟩

theorem Hour_eq : Hour = 3600000000000 := by
  norm_num [Hour, Minute, Second, Nanosecond]

theorem Hours_eq (d : Int) : Hours d = (d : ℚ) / 3600000000000 := by
  unfold Hours
  have h := Int.tdiv_add_tmod d Hour
  rw [Hour_eq] at h ⊢
  have hq : (d : ℚ) = 3600000000000 * ((d.tdiv 3600000000000 : Int) : ℚ)
      + ((d.tmod 3600000000000 : Int) : ℚ) := by
    exact_mod_cast h.symm
  simp only []
  rw [hq]
  field_simp
  ring

theorem Hours_lt_iff (d : Int) : Hours d < 24 ↔ d < 24 * Hour := by
  rw [Hours_eq, Hour_eq, div_lt_iff₀ (by norm_num)]
  constructor
  · intro h
    have h2 : (d : ℚ) < ((24 * 3600000000000 : Int) : ℚ) := by push_cast; linarith
    exact_mod_cast h2
  · intro h
    have h2 : (d : ℚ) < ((24 * 3600000000000 : Int) : ℚ) := by exact_mod_cast h
    push_cast at h2
    linarith

/-- The age test of `DownloadGeoIpDatabase` is the plain comparison of the age with 24 hours:
neither the saturation of `time.Since` nor the split into hours and nanoseconds changes it. -/
theorem fresh_iff (now t : Int) : Hours (Since now t) < 24 ↔ now - t < 24 * Hour := by
  rw [Hours_lt_iff, Hour_eq]
  unfold Since maxDuration minDuration
  norm_num
  split_ifs <;> omega

theorem curlCmd_ne_tarCmd (cfg : Config) : curlCmd cfg ≠ tarCmd cfg := by
  intro h
  have hn := congrArg Cmd.name h
  simp [curlCmd, tarCmd] at hn

theorem DownloadGeoIpDatabase_fresh {W : Type} (cfg : Config) (sys : Sys W) (w : W)
    (fi : FileInfo) (hs : sys.Stat w (dbPath cfg) = Result.ok fi)
    (ha : sys.Now w - fi.ModTime < 24 * Hour) :
    DownloadGeoIpDatabase cfg sys w = ([], w) := by
  have := (fresh_iff (sys.Now w) fi.ModTime).mpr ha
  simp [DownloadGeoIpDatabase, hs, this]

theorem DownloadGeoIpDatabase_stale {W : Type} (cfg : Config) (sys : Sys W) (w : W)
    (h : ¬ ∃ fi, sys.Stat w (dbPath cfg) = Result.ok fi ∧ sys.Now w - fi.ModTime < 24 * Hour) :
    DownloadGeoIpDatabase cfg sys w =
      match sys.Run w (curlCmd cfg) with
      | (some _, w1) => ([curlCmd cfg], w1)
      | (none, w1) => ([curlCmd cfg, tarCmd cfg], (sys.Run w1 (tarCmd cfg)).2) := by
  have hf : (match sys.Stat w (dbPath cfg) with
      | Result.ok databaseFile => decide (Hours (Since (sys.Now w) databaseFile.ModTime) < 24)
      | Result.err _ => false) = false := by
    cases hs : sys.Stat w (dbPath cfg) with
    | err e => rfl
    | ok fi =>
      simp only [decide_eq_false_iff_not]
      intro hlt
      exact h ⟨fi, hs, (fresh_iff _ _).mp hlt⟩
  unfold DownloadGeoIpDatabase
  simp only [hf]
  rcases hr : sys.Run w (curlCmd cfg) with ⟨e, w1⟩
  cases e <;> simp

/-- C10: `DownloadGeoIpDatabase` runs no command exactly when the stat of
`GeoLite2-Country.mmdb` in the configured directory succeeds and the file was modified less
than 24 hours ago; otherwise the first command it runs is the curl download, and the tar
extraction is run exactly when that download was run and gave no error, so the commands run are
none, curl alone, or curl then tar. `InitGeoIP` runs these same commands and then returns the
error of opening the database file, whatever the download and extraction did: it returns an
error exactly when the open fails. -/
theorem download_skipped_iff_fresh_and_init_error_iff_open_fails {W : Type} (cfg : Config)
    (sys : Sys W) (w : W) :
    ((DownloadGeoIpDatabase cfg sys w).1 = [] ↔
        ∃ fi, sys.Stat w (dbPath cfg) = Result.ok fi ∧ sys.Now w - fi.ModTime < 24 * Hour)
      ∧ ((DownloadGeoIpDatabase cfg sys w).1 ≠ [] ↔
          (DownloadGeoIpDatabase cfg sys w).1.head? = some (curlCmd cfg))
      ∧ (tarCmd cfg ∈ (DownloadGeoIpDatabase cfg sys w).1 ↔
          (DownloadGeoIpDatabase cfg sys w).1 ≠ [] ∧ (sys.Run w (curlCmd cfg)).1 = none)
      ∧ ((DownloadGeoIpDatabase cfg sys w).1 = []
          ∨ (DownloadGeoIpDatabase cfg sys w).1 = [curlCmd cfg]
          ∨ (DownloadGeoIpDatabase cfg sys w).1 = [curlCmd cfg, tarCmd cfg])
      ∧ (InitGeoIP cfg sys w).cmds = (DownloadGeoIpDatabase cfg sys w).1
      ∧ ((InitGeoIP cfg sys w).err ≠ none ↔
          ∃ e, sys.Open (DownloadGeoIpDatabase cfg sys w).2 (dbPath cfg) = Result.err e)
      ∧ (∀ e, (InitGeoIP cfg sys w).err = some e ↔
          sys.Open (DownloadGeoIpDatabase cfg sys w).2 (dbPath cfg) = Result.err e) := by
  have hinit : (InitGeoIP cfg sys w).cmds = (DownloadGeoIpDatabase cfg sys w).1
      ∧ ((InitGeoIP cfg sys w).err ≠ none ↔
          ∃ e, sys.Open (DownloadGeoIpDatabase cfg sys w).2 (dbPath cfg) = Result.err e)
      ∧ (∀ e, (InitGeoIP cfg sys w).err = some e ↔
          sys.Open (DownloadGeoIpDatabase cfg sys w).2 (dbPath cfg) = Result.err e) := by
    unfold InitGeoIP
    rcases DownloadGeoIpDatabase cfg sys w with ⟨cmds, w1⟩
    cases ho : sys.Open w1 (dbPath cfg) <;> simp [ho]
  have hne := curlCmd_ne_tarCmd cfg
  by_cases hfresh : ∃ fi, sys.Stat w (dbPath cfg) = Result.ok fi
      ∧ sys.Now w - fi.ModTime < 24 * Hour
  · obtain ⟨fi, hs, ha⟩ := hfresh
    have hd := DownloadGeoIpDatabase_fresh cfg sys w fi hs ha
    refine ⟨?_, ?_, ?_, ?_, hinit⟩
    · rw [hd]; exact ⟨fun _ => ⟨fi, hs, ha⟩, fun _ => rfl⟩
    · rw [hd]; simp
    · rw [hd]; simp
    · rw [hd]; simp
  · have hd := DownloadGeoIpDatabase_stale cfg sys w hfresh
    refine ⟨?_, ?_, ?_, ?_, hinit⟩
    · rw [hd]
      rcases hr : sys.Run w (curlCmd cfg) with ⟨e, w1⟩
      cases e <;> simp [hfresh]
    · rw [hd]
      rcases hr : sys.Run w (curlCmd cfg) with ⟨e, w1⟩
      cases e <;> simp
    · rw [hd]
      rcases hr : sys.Run w (curlCmd cfg) with ⟨e, w1⟩
      cases e <;> simp [hne.symm, hne]
    · rw [hd]
      rcases hr : sys.Run w (curlCmd cfg) with ⟨e, w1⟩
      cases e <;> simp

end Controller
